import Mathlib

/-!
Shallow embedding of the Quake 3 demo-map checker (quake3_map_checker.py).

Paths are modelled as Lean `String`s; zip archives as lists of entry names
(with the bytes of selected entries given separately as `List Nat`, one Nat
per byte).  Python's `str.lower` is modelled character-wise with
`Char.toLower`, which agrees with Python on the ASCII paths this program
manipulates.  Python string primitives (`startswith`, `endswith`, `in`,
`os.path.basename`, `str.split`) are modelled on the underlying character
lists.
-/

namespace Q3Check

/-- Python `str.lower()` (ASCII). -/
def lowerStr (s : String) : String := ⟨s.data.map Char.toLower⟩

/-- Python `s.startswith(p)`. -/
def str_starts (s p : String) : Bool := p.data.isPrefixOf s.data

/-- Python `s.endswith(p)`. -/
def str_ends (s p : String) : Bool := p.data.isSuffixOf s.data

/-- Python `c in s` for a single character `c`. -/
def str_has_char (s : String) (c : Char) : Bool := s.data.contains c

/-- Python `s[:-n]` for `n ≤ len(s)` (used as `low[:-4]`). -/
def str_dropRight (s : String) (n : Nat) : String := ⟨s.data.take (s.data.length - n)⟩

/-- Python `os.path.basename`: the part of the path after the last slash. -/
def basename (s : String) : String := ⟨(s.data.reverse.takeWhile (fun c => !(c == '/'))).reverse⟩

/-- Python `s.split('/')` (on the character list). -/
def splitOnChar (sep : Char) : List Char → List (List Char)
  | [] => [[]]
  | c :: rest =>
    let r := splitOnChar sep rest
    if c == sep then [] :: r
    else
      match r with
      | [] => [[c]]
      | h :: t => (c :: h) :: t

/-- `IGNORE_PATHS` from the source. -/
def IGNORE_PATHS : List String := [("textures/common/"), ("textures/radiant/notex")]

/-- `IGNORE_TERMS` from the source. -/
def IGNORE_TERMS : List String :=
  [("noshader"), ("shadernotfound"), ("$lightmap"), ("$whiteimage"), ("flareshader")]

/-- `load_zip_list(path)`: the filesystem is modelled by an `Option`:
`none` when no file exists at the path, `some names` when a valid archive
with entry list `names` exists there. -/
def load_zip_list : Option (List String) → List String
  | none => []
  | some names => names.map lowerStr

/-- `should_ignore(dep)` from the source. -/
def should_ignore (dep : String) : Bool :=
  IGNORE_PATHS.any fun pre => str_starts (lowerStr dep) pre

/-- `find_in_set(base, s)` from the source: candidate list by extension case,
first candidate contained in `s` wins. -/
def find_in_set (base : String) (s : List String) : Option String :=
  let low := lowerStr base
  let name := basename low
  let cands :=
    if !(str_has_char name '.') then [low ++ (".tga"), low ++ (".jpg"), low]
    else if str_ends low (".tga") then [low, str_dropRight low 4 ++ (".jpg")]
    else if str_ends low (".jpg") then [low, str_dropRight low 4 ++ (".tga")]
    else [low]
  cands.find? fun c => s.contains c

/-- `get_texture_folders(map_files)` from the source. -/
def get_texture_folders (map_files : List String) : List String :=
  map_files.filterMap fun f =>
    if str_starts f ("textures/") then
      let subfolder := splitOnChar '/' f.data
      if subfolder.length > 1 then
        some (("textures/") ++ (⟨subfolder.getD 1 []⟩ : String) ++ ("/"))
      else none
    else none

/-- Python truthiness of `find_in_set`'s result (`None` and `""` are falsy). -/
def optTruthy : Option String → Bool
  | none => false
  | some c => !(c == "")

/-- The five classification buckets of the main loop. -/
inductive Bucket
  | map | demo | patch | full | missing
deriving DecidableEq

/-- One iteration of the module-level classification loop: the bucket the
dependency `dep` is appended to (`none` when the loop `continue`s without
assigning a bucket). -/
def classify (texture_folders map_files demo_files patch_files full_files : List String)
    (dep : String) : Option Bucket :=
  if IGNORE_TERMS.contains (lowerStr dep) then none
  else if should_ignore dep then none
  else if texture_folders.any (fun folder => str_starts (lowerStr dep) folder) then some Bucket.map
  else if optTruthy (find_in_set dep map_files) then some Bucket.map
  else if optTruthy (find_in_set dep demo_files) then some Bucket.demo
  else if optTruthy (find_in_set dep patch_files) then some Bucket.patch
  else if optTruthy (find_in_set dep full_files) then some Bucket.full
  else some Bucket.missing

/-- The ternary verdict of the final `if/elif/else` on `count_full`. -/
inductive Verdict
  | yes | probably | no
deriving DecidableEq

/-- The final verdict branch: `count_full == 0` / `count_full <= 5` / else. -/
def verdict (count_full : Nat) : Verdict :=
  if count_full = 0 then Verdict.yes
  else if count_full ≤ 5 then Verdict.probably
  else Verdict.no

/-! ### Character-level lemmas about lowercasing -/

theorem char_toNat_ofNat {n : Nat} (h : n.isValidChar) : (Char.ofNat n).toNat = n := by
  rw [Char.ofNat, dif_pos h]
  rfl

theorem char_toLower_toLower (c : Char) : c.toLower.toLower = c.toLower := by
  unfold Char.toLower
  by_cases h : 65 ≤ c.toNat ∧ c.toNat ≤ 90
  · rw [if_pos h]
    have hv : (c.toNat + 32).isValidChar := Or.inl (by omega)
    have ht : (Char.ofNat (c.toNat + 32)).toNat = c.toNat + 32 := char_toNat_ofNat hv
    rw [if_neg]
    rw [ht]
    omega
  · rw [if_neg h, if_neg h]

theorem lowerStr_idem (s : String) : lowerStr (lowerStr s) = lowerStr s := by
  unfold lowerStr
  cases s with
  | mk data =>
    simp [List.map_map, Function.comp_def, char_toLower_toLower]

/-- C9: the final verdict is a function of the found-in-full count alone with
thresholds 0 and 5: count 0 gives the top tier, 1–5 the middle tier, and
more than 5 the bottom tier. -/
theorem verdict_thresholds :
    verdict 0 = Verdict.yes ∧
    (∀ n, 1 ≤ n → n ≤ 5 → verdict n = Verdict.probably) ∧
    (∀ n, 5 < n → verdict n = Verdict.no) := by
  refine ⟨rfl, ?_, ?_⟩
  · intro n h1 h2
    unfold verdict
    rw [if_neg (by omega), if_pos h2]
  · intro n h
    unfold verdict
    rw [if_neg (by omega), if_neg (by omega)]

theorem verdict_thresholds_witness :
    (1 ≤ 3 ∧ verdict 3 = Verdict.probably) ∧ (5 < 7 ∧ verdict 7 = Verdict.no) :=
  ⟨⟨by omega, verdict_thresholds.2.1 3 (by omega) (by omega)⟩,
   ⟨by omega, verdict_thresholds.2.2 7 (by omega)⟩⟩

/-- C3: on an archive whose file list contains `textures/bar.jpg` — a plain
file directly under `textures/`, not a subfolder — the texture-folder index
nevertheless contains the prefix `textures/bar.jpg/`, because the
`len(subfolder) > 1` guard holds for every entry below `textures/`.  The
second and third conjuncts record that the entry has exactly two slash-split
components and is not a directory entry, i.e. it lies directly under
`textures/`. -/
theorem get_texture_folders_file_entry_bug :
    get_texture_folders [("textures/bar.jpg")] = [("textures/bar.jpg/")] ∧
    (splitOnChar '/' ("textures/bar.jpg").data).length = 2 ∧
    str_ends ("textures/bar.jpg") ("/") = false := by
  decide

/-- C8: the archive index of a nonexistent archive is empty (never an
error); the index of an existing archive is exactly the lower-casings of its
entry names, and every returned path is already lower-cased. -/
theorem load_zip_list_spec :
    load_zip_list none = [] ∧
    (∀ ns x, x ∈ load_zip_list (some ns) ↔ ∃ n ∈ ns, x = lowerStr n) ∧
    (∀ a x, x ∈ load_zip_list a → lowerStr x = x) := by
  refine ⟨rfl, ?_, ?_⟩
  · intro ns x
    constructor
    · intro hx
      obtain ⟨n, hn, he⟩ := List.mem_map.mp hx
      exact ⟨n, hn, he.symm⟩
    · rintro ⟨n, hn, rfl⟩
      exact List.mem_map.mpr ⟨n, hn, rfl⟩
  · intro a x hx
    cases a with
    | none => simp [load_zip_list] at hx
    | some ns =>
      obtain ⟨n, _, rfl⟩ := List.mem_map.mp hx
      exact lowerStr_idem n

theorem load_zip_list_spec_witness :
    ("ab.tga") ∈ load_zip_list (some [("Ab.TGA")]) ∧ lowerStr ("ab.tga") = ("ab.tga") :=
  ⟨by decide, load_zip_list_spec.2.2 (some [("Ab.TGA")]) ("ab.tga") (by decide)⟩

/-- C7: the ignore filters are case-insensitive and take priority over all
matching: a dependency whose lower-cased form equals one of the five ignore
terms or starts with one of the two ignored path prefixes is assigned no
bucket, whatever the contents of the archive indices. -/
theorem ignore_filters_skip :
    ∀ tf mf df pf ff dep,
      (lowerStr dep = ("noshader") ∨ lowerStr dep = ("shadernotfound") ∨
       lowerStr dep = ("$lightmap") ∨ lowerStr dep = ("$whiteimage") ∨
       lowerStr dep = ("flareshader") ∨
       str_starts (lowerStr dep) ("textures/common/") = true ∨
       str_starts (lowerStr dep) ("textures/radiant/notex") = true) →
      classify tf mf df pf ff dep = none := by
  intro tf mf df pf ff dep h
  by_cases hc : IGNORE_TERMS.contains (lowerStr dep) = true
  · have hm : lowerStr dep ∈ IGNORE_TERMS := by simpa using hc
    simp [classify, hm]
  · have hsi : should_ignore dep = true := by
      rcases h with h | h | h | h | h | h | h
      case _ | _ | _ | _ | _ =>
        exact absurd (by rw [h]; decide) hc
      case _ =>
        refine List.any_eq_true.mpr ⟨("textures/common/"), by decide, h⟩
      case _ =>
        refine List.any_eq_true.mpr ⟨("textures/radiant/notex"), by decide, h⟩
    simp [classify, hc, hsi]

theorem ignore_filters_skip_witness :
    classify [] [] [] [] [("textures/common/caulk")] ("Textures/Common/caulk") = none :=
  ignore_filters_skip [] [] [] [] [("textures/common/caulk")] ("Textures/Common/caulk")
    (Or.inr (Or.inr (Or.inr (Or.inr (Or.inr (Or.inl (by decide)))))))

/-- C2: the format-fallback match tries candidates in the exact order given
by the extension case of the base path and returns the first member of the
set: no dot in the filename component tries `B.tga`, `B.jpg`, `B`; a `.tga`
ending tries `B`, then `B` with `.jpg`; a `.jpg` ending tries `B`, then `B`
with `.tga`; any other extension tries `B` alone, so `sound/x.wav` never
matches a set without that exact path. -/
theorem find_in_set_order :
    ∀ base s,
      (str_has_char (basename (lowerStr base)) '.' = false →
        find_in_set base s =
          [lowerStr base ++ (".tga"), lowerStr base ++ (".jpg"), lowerStr base].find?
            (fun c => s.contains c)) ∧
      (str_has_char (basename (lowerStr base)) '.' = true →
        str_ends (lowerStr base) (".tga") = true →
        find_in_set base s =
          [lowerStr base, str_dropRight (lowerStr base) 4 ++ (".jpg")].find?
            (fun c => s.contains c)) ∧
      (str_has_char (basename (lowerStr base)) '.' = true →
        str_ends (lowerStr base) (".tga") = false →
        str_ends (lowerStr base) (".jpg") = true →
        find_in_set base s =
          [lowerStr base, str_dropRight (lowerStr base) 4 ++ (".tga")].find?
            (fun c => s.contains c)) ∧
      (str_has_char (basename (lowerStr base)) '.' = true →
        str_ends (lowerStr base) (".tga") = false →
        str_ends (lowerStr base) (".jpg") = false →
        find_in_set base s =
          if s.contains (lowerStr base) then some (lowerStr base) else none) ∧
      (s.contains ("sound/x.wav") = false → find_in_set ("sound/x.wav") s = none) := by
  intro base s
  refine ⟨?_, ?_, ?_, ?_, ?_⟩
  · intro h
    simp [find_in_set, h]
  · intro h1 h2
    simp [find_in_set, h1, h2]
  · intro h1 h2 h3
    simp [find_in_set, h1, h2, h3]
  · intro h1 h2 h3
    cases hc : s.contains (lowerStr base) with
    | false =>
      have hc' : lowerStr base ∉ s := by simpa using hc
      simp [find_in_set, h1, h2, h3, hc', List.find?]
    | true =>
      have hc' : lowerStr base ∈ s := by simpa using hc
      simp [find_in_set, h1, h2, h3, hc', List.find?]
  · intro hs
    have h1 : str_has_char (basename (lowerStr ("sound/x.wav"))) '.' = true := by decide
    have h2 : str_ends (lowerStr ("sound/x.wav")) (".tga") = false := by decide
    have h3 : str_ends (lowerStr ("sound/x.wav")) (".jpg") = false := by decide
    have hl : lowerStr ("sound/x.wav") = ("sound/x.wav") := by decide
    have hs' : ("sound/x.wav") ∉ s := by simpa using hs
    simp [find_in_set, h1, h2, h3, hl, List.find?, hs']

theorem find_in_set_order_witness :
    (str_has_char (basename (lowerStr ("a"))) '.' = false ∧
      find_in_set ("a") [("a.jpg")] =
        [lowerStr ("a") ++ (".tga"), lowerStr ("a") ++ (".jpg"), lowerStr ("a")].find?
          (fun c => [("a.jpg")].contains c)) ∧
    ([("sound/x.ogg")].contains ("sound/x.wav") = false ∧
      find_in_set ("sound/x.wav") [("sound/x.ogg")] = none) :=
  ⟨⟨by decide, (find_in_set_order ("a") [("a.jpg")]).1 (by decide)⟩,
   ⟨by decide, (find_in_set_order ("sound/x.wav") [("sound/x.ogg")]).2.2.2.2 (by decide)⟩⟩

/-- C1: every dependency that survives the ignore filters is assigned exactly
one bucket (`classify` returns `some`), and when several indices could match,
the bucket follows the priority map > demo > patch > full > missing; in
particular a dependency matchable in both the demo and full indices is
classified found-in-demo. -/
theorem classify_buckets_priority :
    ∀ tf mf df pf ff dep,
      IGNORE_TERMS.contains (lowerStr dep) = false →
      should_ignore dep = false →
      ((classify tf mf df pf ff dep).isSome = true) ∧
      ((tf.any (fun folder => str_starts (lowerStr dep) folder) = true ∨
          optTruthy (find_in_set dep mf) = true) →
        classify tf mf df pf ff dep = some Bucket.map) ∧
      (tf.any (fun folder => str_starts (lowerStr dep) folder) = false →
        optTruthy (find_in_set dep mf) = false →
        optTruthy (find_in_set dep df) = true →
        classify tf mf df pf ff dep = some Bucket.demo) ∧
      (tf.any (fun folder => str_starts (lowerStr dep) folder) = false →
        optTruthy (find_in_set dep mf) = false →
        optTruthy (find_in_set dep df) = false →
        optTruthy (find_in_set dep pf) = true →
        classify tf mf df pf ff dep = some Bucket.patch) ∧
      (tf.any (fun folder => str_starts (lowerStr dep) folder) = false →
        optTruthy (find_in_set dep mf) = false →
        optTruthy (find_in_set dep df) = false →
        optTruthy (find_in_set dep pf) = false →
        optTruthy (find_in_set dep ff) = true →
        classify tf mf df pf ff dep = some Bucket.full) ∧
      (tf.any (fun folder => str_starts (lowerStr dep) folder) = false →
        optTruthy (find_in_set dep mf) = false →
        optTruthy (find_in_set dep df) = false →
        optTruthy (find_in_set dep pf) = false →
        optTruthy (find_in_set dep ff) = false →
        classify tf mf df pf ff dep = some Bucket.missing) ∧
      (tf.any (fun folder => str_starts (lowerStr dep) folder) = false →
        optTruthy (find_in_set dep mf) = false →
        optTruthy (find_in_set dep df) = true →
        optTruthy (find_in_set dep ff) = true →
        classify tf mf df pf ff dep = some Bucket.demo) := by
  intro tf mf df pf ff dep h1 h2
  have h1m : lowerStr dep ∉ IGNORE_TERMS := by simpa using h1
  refine ⟨?_, ?_, ?_, ?_, ?_, ?_, ?_⟩
  · simp [classify, h1m, h2]
    split_ifs <;> rfl
  · rintro (hs | hm)
    · simp [classify, h1m, h2, hs]
    · by_cases hs : tf.any (fun folder => str_starts (lowerStr dep) folder) = true <;>
        simp [classify, h1m, h2, hs, hm]
  · intro hs hm hd
    simp [classify, h1m, h2, hs, hm, hd]
  · intro hs hm hd hp
    simp [classify, h1m, h2, hs, hm, hd, hp]
  · intro hs hm hd hp hf
    simp [classify, h1m, h2, hs, hm, hd, hp, hf]
  · intro hs hm hd hp hf
    simp [classify, h1m, h2, hs, hm, hd, hp, hf]
  · intro hs hm hd hf
    simp [classify, h1m, h2, hs, hm, hd]

theorem classify_buckets_priority_witness :
    optTruthy (find_in_set ("a") [("a.tga")]) = true ∧
    classify [] [] [("a.tga")] [] [("a.tga")] ("a") = some Bucket.demo :=
  ⟨by decide,
    (classify_buckets_priority [] [] [("a.tga")] [] [("a.tga")] ("a") (by decide)
      (by decide)).2.2.2.2.2.2 (by decide) (by decide) (by decide) (by decide)⟩

/-- C4: a surviving dependency whose lower-cased path starts with one of the
texture-folder prefixes derived from the map archive's file list is
classified found-in-map, whatever the exact contents of the map, demo, patch
and full indices — no exact-name or extension-fallback lookup is involved. -/
theorem classify_texture_folder_shortcut :
    ∀ map_file_list mf df pf ff dep,
      IGNORE_TERMS.contains (lowerStr dep) = false →
      should_ignore dep = false →
      ((get_texture_folders map_file_list).any
          (fun folder => str_starts (lowerStr dep) folder)) = true →
      classify (get_texture_folders map_file_list) mf df pf ff dep = some Bucket.map := by
  intro map_file_list mf df pf ff dep h1 h2 hs
  have h1m : lowerStr dep ∉ IGNORE_TERMS := by simpa using h1
  simp [classify, h1m, h2, hs]

theorem classify_texture_folder_shortcut_witness :
    classify (get_texture_folders [("maps/foo.bsp"), ("textures/foo/bar.jpg")])
        [("maps/foo.bsp"), ("textures/foo/bar.jpg")] [] [] [] ("textures/foo/bar") =
      some Bucket.map :=
  classify_texture_folder_shortcut [("maps/foo.bsp"), ("textures/foo/bar.jpg")]
    [("maps/foo.bsp"), ("textures/foo/bar.jpg")] [] [] [] ("textures/foo/bar")
    (by decide) (by decide) (by decide)

/-! ### BSP location and magic check (`gather_deps`, lines 92–98) -/

/-- One archive entry: its path and its byte content (one `Nat` per byte). -/
structure Entry where
  name : String
  data : List Nat
deriving DecidableEq

/-- The two errors the BSP-locating step can raise. -/
inductive GatherError
  | noBspFound | invalidBsp
deriving DecidableEq

/-- The BSP selection predicate: `f.lower().startswith("maps/") and
f.lower().endswith(".bsp")`. -/
def isBspEntry (n : String) : Bool :=
  str_starts (lowerStr n) ("maps/") && str_ends (lowerStr n) (".bsp")

/-- The four magic bytes `b"IBSP"`. -/
def IBSP : List Nat := [73, 66, 83, 80]

/-- The BSP-locating step of `gather_deps`: filter the listing for BSP
entries, fail if the filtered list is empty, read the first entry, fail if
its first four bytes are not `IBSP`, otherwise hand the data on. -/
def locate_bsp (entries : List Entry) : Except GatherError (List Nat) :=
  match entries.filter (fun e => isBspEntry e.name) with
  | [] => Except.error GatherError.noBspFound
  | e :: _ =>
    if e.data.take 4 = IBSP then Except.ok e.data else Except.error GatherError.invalidBsp

theorem head?_filter_eq_find? (p : α → Bool) (l : List α) :
    (l.filter p).head? = l.find? p := by
  induction l with
  | nil => rfl
  | cons a l ih =>
    cases hp : p a <;> simp [List.filter_cons, List.find?_cons, hp, ih]

/-- C5: the step fails with `noBspFound` iff no entry matches `maps/…​.bsp`
(case-insensitively); otherwise it reads the first match in listing order and
fails with `invalidBsp` iff that entry's first four bytes differ from
`IBSP`, succeeding with the entry's data otherwise. -/
theorem locate_bsp_spec (entries : List Entry) :
    (locate_bsp entries = Except.error GatherError.noBspFound ↔
      ∀ e ∈ entries, isBspEntry e.name = false) ∧
    (∀ e, entries.find? (fun x => isBspEntry x.name) = some e →
      ((locate_bsp entries = Except.error GatherError.invalidBsp ↔ ¬ e.data.take 4 = IBSP) ∧
       (locate_bsp entries = Except.ok e.data ↔ e.data.take 4 = IBSP))) := by
  have hhf := head?_filter_eq_find? (fun x => isBspEntry x.name) entries
  cases hf : entries.filter (fun x => isBspEntry x.name) with
  | nil =>
    have hfind : entries.find? (fun x => isBspEntry x.name) = none := by
      rw [← hhf, hf]
      rfl
    constructor
    · constructor
      · intro _ e he
        have := List.filter_eq_nil_iff.mp hf e he
        simpa using this
      · intro _
        simp [locate_bsp, hf]
    · intro e he
      rw [hfind] at he
      exact absurd he (by simp)
  | cons e0 tl =>
    have hfind : entries.find? (fun x => isBspEntry x.name) = some e0 := by
      rw [← hhf, hf]
      rfl
    have he0 : e0 ∈ entries.filter (fun x => isBspEntry x.name) := by
      rw [hf]
      exact List.mem_cons_self e0 tl
    have he0' := List.mem_filter.mp he0
    constructor
    · constructor
      · intro h
        by_cases hm : e0.data.take 4 = IBSP <;> simp [locate_bsp, hf, hm] at h
      · intro h
        have := h e0 he0'.1
        rw [he0'.2] at this
        exact absurd this (by simp)
    · intro e he
      rw [hfind] at he
      have : e0 = e := by injection he
      subst this
      by_cases hm : e0.data.take 4 = IBSP <;> simp [locate_bsp, hf, hm]

theorem locate_bsp_spec_witness :
    ([Entry.mk ("scripts/a.shader") [], Entry.mk ("maps/Q.bsp") [73, 66, 83, 80, 0]].find?
        (fun x => isBspEntry x.name) =
      some (Entry.mk ("maps/Q.bsp") [73, 66, 83, 80, 0])) ∧
    locate_bsp [Entry.mk ("scripts/a.shader") [], Entry.mk ("maps/Q.bsp") [73, 66, 83, 80, 0]] =
      Except.ok [73, 66, 83, 80, 0] :=
  ⟨by decide,
    (((locate_bsp_spec
          [Entry.mk ("scripts/a.shader") [], Entry.mk ("maps/Q.bsp") [73, 66, 83, 80, 0]]).2
        (Entry.mk ("maps/Q.bsp") [73, 66, 83, 80, 0]) (by decide)).2).mpr (by decide)⟩

/-! ### Texture lump extraction (`gather_deps`, lines 103–109) -/

/-- Python `bytes.decode("ascii", "ignore")`: bytes below 128 become the
corresponding characters, other bytes are dropped. -/
def decode_ascii_ignore (bs : List Nat) : String :=
  ⟨(bs.filter (fun b => b < 128)).map Char.ofNat⟩

/-- The decoded name of the `i`-th texture record: 64 bytes starting at
`off + i*72`, cut at the first null byte, decoded as ASCII with invalid
bytes ignored. -/
def record_name (data : List Nat) (off i : Nat) : String :=
  decode_ascii_ignore (((data.drop (off + i * 72)).take 64).takeWhile (fun b => !(b == 0)))

/-- The texture-name extraction loop: `length // 72` records, keeping the
non-empty decoded names. -/
def texture_names (data : List Nat) (off len : Nat) : List String :=
  ((List.range (len / 72)).map (record_name data off)).filter (fun n => !(n == ("")))

/-- C6: the extractor processes exactly `len / 72` records — a trailing
partial record is silently dropped, so the result only depends on
`72 * (len / 72)` bytes of lump length — a name is kept iff it is the
non-empty decoded 64-byte prefix of one of those records, and every kept
name came from at most 64 bytes. -/
theorem texture_names_spec (data : List Nat) (off len : Nat) :
    texture_names data off len = texture_names data off (72 * (len / 72)) ∧
    (∀ n, n ∈ texture_names data off len ↔
      (¬ n = ("") ∧ ∃ i, i < len / 72 ∧ n = record_name data off i)) ∧
    (∀ i, (record_name data off i).length ≤ 64) := by
  refine ⟨?_, ?_, ?_⟩
  · unfold texture_names
    rw [Nat.mul_div_cancel_left _ (by omega : 0 < 72)]
  · intro n
    simp only [texture_names, List.mem_filter, List.mem_map, List.mem_range]
    constructor
    · rintro ⟨⟨i, hi, rfl⟩, hne⟩
      exact ⟨by simpa using hne, i, hi, rfl⟩
    · rintro ⟨hne, i, hi, rfl⟩
      exact ⟨⟨i, hi, rfl⟩, by simpa using hne⟩
  · intro i
    show (decode_ascii_ignore _).length ≤ 64
    unfold decode_ascii_ignore
    have h1 : ∀ l : List Nat, ((l.filter (fun b => b < 128)).map Char.ofNat).length ≤ l.length :=
      fun l => by simpa using List.length_filter_le _ l
    calc (String.mk (((((data.drop (off + i * 72)).take 64).takeWhile
            (fun b => !(b == 0))).filter (fun b => b < 128)).map Char.ofNat)).length
        ≤ (((data.drop (off + i * 72)).take 64).takeWhile (fun b => !(b == 0))).length :=
          h1 _
      _ ≤ ((data.drop (off + i * 72)).take 64).length := by
          conv_rhs =>
            rw [← List.takeWhile_append_dropWhile (p := fun b => !(b == 0))
                  (l := (data.drop (off + i * 72)).take 64)]
          rw [List.length_append]
          omega
      _ ≤ 64 := List.length_take_le _ _

theorem texture_names_spec_witness :
    texture_names ((List.range 72).map (fun _ => 65)) 0 100 =
      texture_names ((List.range 72).map (fun _ => 65)) 0 72 :=
  (texture_names_spec ((List.range 72).map (fun _ => 65)) 0 100).1

/-! ### Shader script scanning (`gather_deps`, lines 121–130)

The scanner models the Python regex
`\b(qer_editorImage|map|clampMap|animMap)\b\s+([^\s]+)` applied by
`re.findall` to the comment-stripped shader text: at every position whose
preceding character is not a word character, one of the four keywords (with
exact letter case) followed by at least one whitespace character and a
maximal non-whitespace token constitutes a match, and scanning resumes after
the token.  Since the keywords start with pairwise distinct characters and
end followed by mandatory whitespace, alternation order and the trailing
`\b` are captured exactly. -/

/-- The shader-file selection predicate:
`f.lower().startswith("scripts/") and f.lower().endswith(".shader")`. -/
def isShaderFile (n : String) : Bool :=
  str_starts (lowerStr n) ("scripts/") && str_ends (lowerStr n) (".shader")

/-- Python regex `\w` on ASCII text: letters, digits and underscore. -/
def isWordChar (c : Char) : Bool := c.isAlphanum || c == '_'

/-- Python regex `\s` on ASCII text (space, tab, newline, carriage return,
vertical tab, form feed and the four ASCII separator control characters). -/
def isSpace (c : Char) : Bool :=
  c == ' ' || c == '\t' || c == '\n' || c == '\r' || c == '\x0b' || c == '\x0c' ||
    c == '\x1c' || c == '\x1d' || c == '\x1e' || c == '\x1f'

/-- The four directive keywords of the regex alternation, exactly as they
appear in the pattern (the regex is compiled without `re.IGNORECASE`). -/
def kwList : List (List Char) :=
  [("qer_editorImage").data, ("map").data, ("clampMap").data, ("animMap").data]

/-- Matching `(kw)\b\s+([^\s]+)` at the head of `cs` (the leading word
boundary is the caller's responsibility): returns the keyword, the token and
the rest of the text after the token. -/
def tryMatch (cs : List Char) : Option (List Char × List Char × List Char) :=
  match kwList.find? (fun kw => kw.isPrefixOf cs) with
  | none => none
  | some kw =>
    match cs.drop kw.length with
    | [] => none
    | c :: rest' =>
      if isSpace c then
        if ((c :: rest').dropWhile isSpace).takeWhile (fun d => !(isSpace d)) = [] then none
        else
          some (kw, ((c :: rest').dropWhile isSpace).takeWhile (fun d => !(isSpace d)),
            ((c :: rest').dropWhile isSpace).dropWhile (fun d => !(isSpace d)))
      else none

/-- The left-to-right scan of `re.findall`: attempt a match at every word
boundary, resume after each match.  `fuel` bounds the recursion;
`scan_shader` passes the text length, which suffices since every step
consumes at least one character. -/
def scanAux : Nat → Bool → List Char → List (List Char × List Char)
  | 0, _, _ => []
  | _ + 1, _, [] => []
  | fuel + 1, prevW, c :: rest =>
    if prevW then scanAux fuel (isWordChar c) rest
    else
      match tryMatch (c :: rest) with
      | some (kw, tok, rem) => (kw, tok) :: scanAux fuel (isWordChar (tok.getLastD 'a')) rem
      | none => scanAux fuel (isWordChar c) rest

/-- All `(directive, token)` regex matches in a comment-stripped shader
text. -/
def scan_shader (text : List Char) : List (List Char × List Char) :=
  scanAux text.length false text

/-- Python `path.strip('"')`. -/
def strip_quotes (tok : List Char) : List Char :=
  ((tok.dropWhile (fun c => c == '"')).reverse.dropWhile (fun c => c == '"')).reverse

/-- The dependencies a comment-stripped shader text contributes: stripped
match tokens whose path starts with `textures/`, `models/` or `sound/`. -/
def shader_deps_of_text (text : List Char) : List (List Char) :=
  (scan_shader text).filterMap fun p =>
    if ("textures/").data.isPrefixOf (strip_quotes p.2) ||
        ("models/").data.isPrefixOf (strip_quotes p.2) ||
        ("sound/").data.isPrefixOf (strip_quotes p.2) then
      some (strip_quotes p.2)
    else none

theorem isPrefixOf_eq_append {p l : List Char} (h : p.isPrefixOf l = true) :
    l = p ++ l.drop p.length := by
  induction p generalizing l with
  | nil => simp
  | cons a p ih =>
    cases l with
    | nil => simp [List.isPrefixOf] at h
    | cons b l =>
      simp only [List.isPrefixOf, Bool.and_eq_true, beq_iff_eq] at h
      obtain ⟨rfl, hpl⟩ := h
      simpa using congrArg (List.cons a) (ih hpl)

theorem tryMatch_sound {cs kw tok rem : List Char}
    (h : tryMatch cs = some (kw, tok, rem)) :
    kw ∈ kwList ∧ ∃ sp, cs = kw ++ (sp ++ (tok ++ rem)) ∧ ¬ sp = [] ∧
      (∀ c ∈ sp, isSpace c = true) ∧ ¬ tok = [] ∧ (∀ c ∈ tok, isSpace c = false) := by
  unfold tryMatch at h
  cases hfind : kwList.find? (fun kw => kw.isPrefixOf cs) with
  | none =>
    rw [hfind] at h
    simp at h
  | some kw0 =>
    rw [hfind] at h
    dsimp only at h
    have hkmem : kw0 ∈ kwList := List.mem_of_find?_eq_some hfind
    have hkpre : kw0.isPrefixOf cs = true := by simpa using List.find?_some hfind
    cases hdrop : cs.drop kw0.length with
    | nil =>
      rw [hdrop] at h
      simp at h
    | cons c rest' =>
      rw [hdrop] at h
      dsimp only at h
      by_cases hsp : isSpace c = true
      · rw [if_pos hsp] at h
        by_cases htok :
            ((c :: rest').dropWhile isSpace).takeWhile (fun d => !(isSpace d)) = []
        · rw [if_pos htok] at h
          exact absurd h (by simp)
        · rw [if_neg htok] at h
          simp only [Option.some.injEq, Prod.mk.injEq] at h
          obtain ⟨rfl, rfl, rfl⟩ := h
          refine ⟨hkmem, (c :: rest').takeWhile isSpace, ?_, ?_, ?_, htok, ?_⟩
          · have e1 : cs = kw0 ++ (c :: rest') := by
              have := isPrefixOf_eq_append hkpre
              rwa [hdrop] at this
            rw [List.takeWhile_append_dropWhile (p := fun d => !(isSpace d)),
                List.takeWhile_append_dropWhile (p := isSpace)]
            exact e1
          · simp [List.takeWhile_cons, hsp]
          · intro x hx
            exact List.mem_takeWhile_imp hx
          · intro x hx
            have := List.mem_takeWhile_imp hx
            simpa using this
      · rw [if_neg hsp] at h
        exact absurd h (by simp)

theorem scanAux_sound :
    ∀ fuel prevW cs kw tok, (kw, tok) ∈ scanAux fuel prevW cs →
      kw ∈ kwList ∧ ∃ l sp rem, cs = l ++ (kw ++ (sp ++ (tok ++ rem))) ∧ ¬ sp = [] ∧
        (∀ c ∈ sp, isSpace c = true) ∧ ¬ tok = [] ∧ (∀ c ∈ tok, isSpace c = false) := by
  intro fuel
  induction fuel with
  | zero =>
    intro prevW cs kw tok h
    simp [scanAux] at h
  | succ n ih =>
    intro prevW cs kw tok h
    cases cs with
    | nil => simp [scanAux] at h
    | cons c rest =>
      cases prevW with
      | true =>
        have h' : (kw, tok) ∈ scanAux n (isWordChar c) rest := h
        obtain ⟨hkmem, l, sp, rem, hdec, hrest⟩ := ih (isWordChar c) rest kw tok h'
        exact ⟨hkmem, c :: l, sp, rem, by rw [hdec]; rfl, hrest⟩
      | false =>
        have hunf : scanAux (n + 1) false (c :: rest) =
            match tryMatch (c :: rest) with
            | some (kw, tok, rem) =>
              (kw, tok) :: scanAux n (isWordChar (tok.getLastD 'a')) rem
            | none => scanAux n (isWordChar c) rest := rfl
        rw [hunf] at h
        cases htm : tryMatch (c :: rest) with
        | none =>
          rw [htm] at h
          obtain ⟨hkmem, l, sp, rem, hdec, hrest⟩ := ih (isWordChar c) rest kw tok h
          exact ⟨hkmem, c :: l, sp, rem, by rw [hdec]; rfl, hrest⟩
        | some trip =>
          obtain ⟨kw0, tok0, rem0⟩ := trip
          rw [htm] at h
          rcases List.mem_cons.mp h with hhd | htl
          · obtain ⟨rfl, rfl⟩ : kw = kw0 ∧ tok = tok0 := by
              simpa [Prod.ext_iff] using hhd
            obtain ⟨hkmem, sp, hdec, hspne, hsp, htokne, htok⟩ := tryMatch_sound htm
            exact ⟨hkmem, [], sp, rem0, by simpa using hdec, hspne, hsp, htokne, htok⟩
          · obtain ⟨hkmem, l, sp, rem, hdec, hrest⟩ :=
              ih (isWordChar (tok0.getLastD 'a')) rem0 kw tok htl
            obtain ⟨_, sp0, hdec0, _, _, _, _⟩ := tryMatch_sound htm
            refine ⟨hkmem, kw0 ++ (sp0 ++ (tok0 ++ l)), sp, rem, ?_, hrest⟩
            rw [hdec0, hdec]
            simp [List.append_assoc]

/-- C10: shader directive keywords are matched case-sensitively while the
shader file selection is case-insensitive.  Every dependency a shader text
contributes comes from an occurrence of one of the exact-case keywords
`qer_editorImage`, `map`, `clampMap`, `animMap` followed by whitespace and
the token; texts whose directive differs only in case (`animmap`, `Map`)
contribute nothing even with a `textures/` argument, while the exact-case
spelling does contribute; and the script-selection predicate is unchanged by
lower-casing the file name. -/
theorem shader_scan_case_sensitive :
    (∀ text d, d ∈ shader_deps_of_text text →
      ∃ kw l sp tok rem, kw ∈ kwList ∧ text = l ++ (kw ++ (sp ++ (tok ++ rem))) ∧
        ¬ sp = [] ∧ (∀ c ∈ sp, isSpace c = true) ∧ ¬ tok = [] ∧
        (∀ c ∈ tok, isSpace c = false) ∧ d = strip_quotes tok) ∧
    shader_deps_of_text ("animmap textures/foo").data = [] ∧
    shader_deps_of_text ("Map textures/foo").data = [] ∧
    shader_deps_of_text ("animMap textures/foo").data = [("textures/foo").data] ∧
    (∀ n, isShaderFile n = isShaderFile (lowerStr n)) := by
  refine ⟨?_, by decide, by decide, by decide, ?_⟩
  · intro text d hd
    unfold shader_deps_of_text at hd
    obtain ⟨⟨kw, tok⟩, hmem, hfm⟩ := List.mem_filterMap.mp hd
    have hd' : d = strip_quotes tok := by
      by_cases hc : (("textures/").data.isPrefixOf (strip_quotes tok) ||
          ("models/").data.isPrefixOf (strip_quotes tok) ||
          ("sound/").data.isPrefixOf (strip_quotes tok)) = true
      · rw [if_pos hc] at hfm
        exact (Option.some.inj hfm).symm
      · rw [if_neg hc] at hfm
        exact absurd hfm (by simp)
    obtain ⟨hkmem, l, sp, rem, hdec, hspne, hsp, htokne, htok⟩ :=
      scanAux_sound text.length false text kw tok hmem
    exact ⟨kw, l, sp, tok, rem, hkmem, hdec, hspne, hsp, htokne, htok, hd'⟩
  · intro n
    unfold isShaderFile
    rw [lowerStr_idem]

theorem shader_scan_case_sensitive_witness :
    ("textures/a").data ∈ shader_deps_of_text ("map textures/a").data ∧
    ∃ kw l sp tok rem, kw ∈ kwList ∧
      ("map textures/a").data = l ++ (kw ++ (sp ++ (tok ++ rem))) ∧ ¬ sp = [] ∧
      (∀ c ∈ sp, isSpace c = true) ∧ ¬ tok = [] ∧ (∀ c ∈ tok, isSpace c = false) ∧
      ("textures/a").data = strip_quotes tok :=
  ⟨by decide,
    shader_scan_case_sensitive.1 ("map textures/a").data ("textures/a").data (by decide)⟩

end Q3Check
